import Mathlib

/-!
Verification of the gas-blockchain chain engine (src/blockchain.py).

The development shallowly embeds the Python source: `Transaction`, `Block`
(with `calculate_hash` and the proof-of-work loop `mine`) and the
`Blockchain` engine (`_create_genesis_block`, `add_block`, `is_valid`).
Machine-level details are embedded as follows:

* `hashlib.sha256(...).hexdigest()` is implemented bit-faithfully on
  `Nat` byte lists (all word arithmetic is explicit `% 2^32`);
* `json.dumps({...}, sort_keys=True)` is reproduced character by
  character (sorted keys, `", "` and `": "` separators, `ensure_ascii`
  string escaping);
* a block timestamp is a Python float produced by `time.time()` and is
  only ever interpolated into the JSON hash input; the embedding carries
  it as its JSON rendering (a `String` field), avoiding floating point;
* transaction amounts are carried as rationals; they never enter any
  digest;
* the unbounded `while` loop of `mine` is embedded with explicit fuel,
  returning `none` when the fuel runs out (non-termination);
* `raise ValueError` in `add_block` becomes an `Except` error value;
* the external `ecdsa` library (an abstract capability per the spec) is a
  record of verification operations passed in explicitly; any Python
  exception inside the `try` of `Transaction.is_valid` is a `none`/`false`
  result of the corresponding operation.
-/

namespace GasBlockchain

/-! ## SHA-256 over byte lists (embedding of `hashlib.sha256(...).hexdigest()`) -/

/-- Two-to-the-32, the word modulus of SHA-256. -/
def w32 : Nat := 4294967296

/-- Addition modulo 2^32. -/
def add32 (a b : Nat) : Nat := (a + b) % w32

/-- Right rotation of a 32-bit word (input assumed < 2^32). -/
def rotr (n x : Nat) : Nat := (x >>> n) ||| ((x <<< (32 - n)) % w32)

/-- Bitwise complement within 32 bits. -/
def not32 (x : Nat) : Nat := 4294967295 ^^^ x

/-- UTF-8 encoding of one character, as bytes. -/
def utf8Char (c : Char) : List Nat :=
  let n := c.toNat
  if n < 128 then [n]
  else if n < 2048 then [192 + n / 64, 128 + n % 64]
  else if n < 65536 then [224 + n / 4096, 128 + (n / 64) % 64, 128 + n % 64]
  else [240 + n / 262144, 128 + (n / 4096) % 64, 128 + (n / 64) % 64, 128 + n % 64]

/-- UTF-8 encoding of a string (Python `str.encode()`). -/
def utf8Bytes (s : String) : List Nat :=
  s.data.foldr (fun c acc => utf8Char c ++ acc) []

/-- The eight-byte big-endian encoding of a (message bit-) length. -/
def lenBytes (n : Nat) : List Nat :=
  [(n >>> 56) % 256, (n >>> 48) % 256, (n >>> 40) % 256, (n >>> 32) % 256,
   (n >>> 24) % 256, (n >>> 16) % 256, (n >>> 8) % 256, n % 256]

/-- SHA-256 message padding: append `0x80`, zeros to 56 mod 64, then the
bit length big-endian. -/
def shaPad (msg : List Nat) : List Nat :=
  let L := msg.length
  let zeros := (64 - ((L + 9) % 64)) % 64
  msg ++ 128 :: List.replicate zeros 0 ++ lenBytes (8 * L)

/-- Group bytes into big-endian 32-bit words. -/
def toWordsBE : List Nat → List Nat
  | b0 :: b1 :: b2 :: b3 :: rest =>
      (b0 * 16777216 + b1 * 65536 + b2 * 256 + b3) :: toWordsBE rest
  | _ => []

/-- Split a byte list into `k` chunks of 64 bytes. -/
def chunk64Aux : Nat → List Nat → List (List Nat)
  | 0, _ => []
  | k + 1, l => l.take 64 :: chunk64Aux k (l.drop 64)

/-- Split a padded byte list into its 64-byte chunks. -/
def chunk64 (l : List Nat) : List (List Nat) := chunk64Aux (l.length / 64) l

/-- The SHA-256 round constants (FIPS 180-4), written in decimal. -/
def shaK : List Nat :=
  [1116352408, 1899447441, 3049323471, 3921009573, 961987163,
   1508970993, 2453635748, 2870763221, 3624381080, 310598401,
   607225278, 1426881987, 1925078388, 2162078206, 2614888103,
   3248222580, 3835390401, 4022224774, 264347078, 604807628,
   770255983, 1249150122, 1555081692, 1996064986, 2554220882,
   2821834349, 2952996808, 3210313671, 3336571891, 3584528711,
   113926993, 338241895, 666307205, 773529912, 1294757372,
   1396182291, 1695183700, 1986661051, 2177026350, 2456956037,
   2730485921, 2820302411, 3259730800, 3345764771, 3516065817,
   3600352804, 4094571909, 275423344, 430227734, 506948616,
   659060556, 883997877, 958139571, 1322822218, 1537002063,
   1747873779, 1955562222, 2024104815, 2227730452, 2361852424,
   2428436474, 2756734187, 3204031479, 3329325298]

/-- Working state of the SHA-256 compression function. -/
structure ShaState where
  a : Nat
  b : Nat
  c : Nat
  d : Nat
  e : Nat
  f : Nat
  g : Nat
  h : Nat
  deriving Repr, DecidableEq

/-- The SHA-256 initial hash value, written in decimal. -/
def shaH0 : ShaState :=
  ⟨1779033703, 3144134277, 1013904242, 2773480762, 1359893119, 2600822924, 528734635, 1541459225⟩

/-- One step of the message-schedule extension. -/
def schedStep (w : Array Nat) (i : Nat) : Array Nat :=
  let x15 := w.getD (i + 1) 0
  let x2 := w.getD (i + 14) 0
  let s0 := rotr 7 x15 ^^^ rotr 18 x15 ^^^ (x15 >>> 3)
  let s1 := rotr 17 x2 ^^^ rotr 19 x2 ^^^ (x2 >>> 10)
  w.push (add32 (add32 (w.getD i 0) s0) (add32 (w.getD (i + 9) 0) s1))

/-- The 64-word message schedule of one 64-byte chunk. -/
def schedule (chunk : List Nat) : List Nat :=
  ((List.range 48).foldl schedStep (toWordsBE chunk).toArray).toList

/-- One round of the SHA-256 compression function. -/
def shaRound (st : ShaState) (kw : Nat × Nat) : ShaState :=
  let s1 := rotr 6 st.e ^^^ rotr 11 st.e ^^^ rotr 25 st.e
  let ch := (st.e &&& st.f) ^^^ (not32 st.e &&& st.g)
  let t1 := add32 (add32 (add32 (add32 st.h s1) ch) kw.1) kw.2
  let s0 := rotr 2 st.a ^^^ rotr 13 st.a ^^^ rotr 22 st.a
  let mj := (st.a &&& st.b) ^^^ (st.a &&& st.c) ^^^ (st.b &&& st.c)
  let t2 := add32 s0 mj
  ⟨add32 t1 t2, st.a, st.b, st.c, add32 st.d t1, st.e, st.f, st.g⟩

/-- Compress one 64-byte chunk into the running hash state. -/
def compressChunk (hs : ShaState) (chunk : List Nat) : ShaState :=
  let st := (List.zip shaK (schedule chunk)).foldl shaRound hs
  ⟨add32 hs.a st.a, add32 hs.b st.b, add32 hs.c st.c, add32 hs.d st.d,
   add32 hs.e st.e, add32 hs.f st.f, add32 hs.g st.g, add32 hs.h st.h⟩

/-- SHA-256 of a byte list, as the final eight-word state. -/
def sha256 (msg : List Nat) : ShaState :=
  (chunk64 (shaPad msg)).foldl compressChunk shaH0

/-- Lowercase hexadecimal digit. -/
def hexDigit (n : Nat) : Char :=
  if n < 10 then Char.ofNat (48 + n) else Char.ofNat (87 + n)

/-- Eight-hex-digit rendering of a 32-bit word. -/
def wordHex (x : Nat) : String :=
  String.mk [hexDigit ((x >>> 28) % 16), hexDigit ((x >>> 24) % 16),
             hexDigit ((x >>> 20) % 16), hexDigit ((x >>> 16) % 16),
             hexDigit ((x >>> 12) % 16), hexDigit ((x >>> 8) % 16),
             hexDigit ((x >>> 4) % 16), hexDigit (x % 16)]

/-- Embedding of `hashlib.sha256(s.encode()).hexdigest()`. -/
def sha256Hex (s : String) : String :=
  let st := sha256 (utf8Bytes s)
  wordHex st.a ++ wordHex st.b ++ wordHex st.c ++ wordHex st.d ++
  wordHex st.e ++ wordHex st.f ++ wordHex st.g ++ wordHex st.h

/-! ## Canonical JSON rendering (embedding of `json.dumps(..., sort_keys=True)`) -/

/-- Four-hex-digit rendering used in JSON `\u` escapes. -/
def uHex4 (n : Nat) : String :=
  String.mk [hexDigit ((n / 4096) % 16), hexDigit ((n / 256) % 16),
             hexDigit ((n / 16) % 16), hexDigit (n % 16)]

/-- JSON escaping of one character, as CPython `json.dumps` does with its
default `ensure_ascii=True` (non-printable-ASCII characters become `\u`
escapes, astral characters become surrogate pairs). -/
def jsonEscChar (c : Char) : String :=
  let n := c.toNat
  if c = '"' then "\\\""
  else if c = '\\' then "\\\\"
  else if n = 8 then "\\b"
  else if n = 9 then "\\t"
  else if n = 10 then "\\n"
  else if n = 12 then "\\f"
  else if n = 13 then "\\r"
  else if n < 32 then "\\u" ++ uHex4 n
  else if n < 127 then String.singleton c
  else if n < 65536 then "\\u" ++ uHex4 n
  else "\\u" ++ uHex4 (55296 + (n - 65536) / 1024) ++ "\\u" ++ uHex4 (56320 + (n - 65536) % 1024)

/-- JSON escaping of a whole string body. -/
def jsonEsc (s : String) : String :=
  s.data.foldr (fun c acc => jsonEscChar c ++ acc) ""

/-- Embedding of the exact text produced by
`json.dumps({"index": i, "previous_hash": ph, "timestamp": ts, "nonce": n}, sort_keys=True)`:
keys sorted alphabetically (`index`, `nonce`, `previous_hash`, `timestamp`),
separators `", "` and `": "`.  `ts` is the float's JSON rendering, carried
verbatim. -/
def blockJson (i : Nat) (ph ts : String) (n : Nat) : String :=
  "\x7b\"index\": " ++ toString i ++ ", \"nonce\": " ++ toString n ++
  ", \"previous_hash\": \"" ++ jsonEsc ph ++ "\", \"timestamp\": " ++ ts ++ "\x7d"

/-! ## Transactions (embedding of `Transaction` in src/blockchain.py) -/

/-- Embedding of the `Transaction` dataclass.  `amount` and the gas fields
are Python floats in the source; they never enter any digest, so they are
carried as rationals. -/
structure Transaction where
  sender : String
  receiver : String
  amount : ℚ
  input_gas : ℚ
  output_gas : ℚ
  self_consumption : ℚ
  signature : Option String
  deriving Repr, DecidableEq

/-- Rendering of the amount used in the signed message
`f"{self.sender}{self.receiver}{self.amount}"`.  The source renders the
float with Python `str`; no property proved below depends on the exact
rendering, so the rational is rendered numerically. -/
def amountRepr (q : ℚ) : String :=
  if q.den = 1 then toString q.num else toString q.num ++ "/" ++ toString q.den

/-- The canonical message bytes `f"{sender}{receiver}{amount}".encode()`. -/
def tx_data (t : Transaction) : List Nat :=
  utf8Bytes (t.sender ++ t.receiver ++ amountRepr t.amount)

/-- Value of one hexadecimal digit character, if any. -/
def hexVal (c : Char) : Option Nat :=
  if 48 ≤ c.toNat ∧ c.toNat ≤ 57 then some (c.toNat - 48)
  else if 97 ≤ c.toNat ∧ c.toNat ≤ 102 then some (c.toNat - 87)
  else if 65 ≤ c.toNat ∧ c.toNat ≤ 70 then some (c.toNat - 55)
  else none

/-- Helper for `bytesFromHex`: pairs of hex digits, ASCII spaces allowed
between pairs, anything else is a failure. -/
def fromHexAux : List Char → Option (List Nat)
  | [] => some []
  | c :: rest =>
    if c = ' ' then fromHexAux rest
    else
      match rest with
      | [] => none
      | c2 :: rest2 =>
        match hexVal c, hexVal c2 with
        | some a, some b => Option.map (fun r => (16 * a + b) :: r) (fromHexAux rest2)
        | _, _ => none

/-- Embedding of Python `bytes.fromhex`: `none` models the `ValueError`
raised on malformed input (caught by the `try` in `Transaction.is_valid`). -/
def bytesFromHex (s : String) : Option (List Nat) := fromHexAux s.data

/-- The external `ecdsa` library (`VerifyingKey.from_string` on curve
NIST256p, and `verify`), an abstract cryptographic capability per the
spec.  `fromBytes` returns `none` where the library would raise on a
malformed or wrong-curve key encoding; `verify` returns `false` where the
library would raise `BadSignatureError`. -/
structure EcdsaApi (K : Type) where
  fromBytes : List Nat → Option K
  verify : K → List Nat → List Nat → Bool

/-- Embedding of `Transaction.is_valid`.  Every failure path of the
source's `try` block (malformed sender hex, malformed key, `signature is
None`, malformed signature hex, failed verification) resolves to `false`;
the function is total and never fails. -/
def Transaction.is_valid {K : Type} (api : EcdsaApi K) (t : Transaction) : Bool :=
  if t.sender == "Genesis" then true
  else
    match bytesFromHex t.sender with
    | none => false
    | some senderBytes =>
      match api.fromBytes senderBytes with
      | none => false
      | some vk =>
        match t.signature with
        | none => false
        | some sg =>
          match bytesFromHex sg with
          | none => false
          | some sigBytes => api.verify vk sigBytes (tx_data t)

/-! ## Blocks (embedding of `Block` in src/blockchain.py) -/

/-- Embedding of the `Block` dataclass.  `timestamp` is a Python float
produced by `time.time()`; the code only ever interpolates it into the
JSON hash input, so the embedding carries its JSON rendering. -/
structure Block where
  index : Nat
  previous_hash : String
  timestamp : String
  transactions : List Transaction
  nonce : Nat
  hash : String
  deriving Repr, DecidableEq

/-- Embedding of `Block.calculate_hash`: SHA-256 hex digest of the
canonical JSON of `(index, previous_hash, timestamp, nonce)` —
transactions are not part of the digest. -/
def Block.calculate_hash (b : Block) : String :=
  sha256Hex (blockJson b.index b.previous_hash b.timestamp b.nonce)

/-- Embedding of the `Block` constructor together with `__post_init__`,
which sets `hash = calculate_hash()`. -/
def mkBlock (i : Nat) (ph ts : String) (txs : List Transaction) (n : Nat) : Block :=
  ⟨i, ph, ts, txs, n, sha256Hex (blockJson i ph ts n)⟩

/-- Embedding of Python `s.startswith(p)`. -/
def pyStartswith (s p : String) : Bool := p.data.isPrefixOf s.data

/-- The proof-of-work target string `"0" * difficulty`. -/
def zeroTarget (d : Nat) : String := String.mk (List.replicate d '0')

/-- One iteration of the mining loop body:
`self.nonce += 1; self.hash = self.calculate_hash()`. -/
def mineStep (b : Block) : Block :=
  let bumped : Block :=
    ⟨b.index, b.previous_hash, b.timestamp, b.transactions, b.nonce + 1, b.hash⟩
  ⟨bumped.index, bumped.previous_hash, bumped.timestamp, bumped.transactions,
   bumped.nonce, bumped.calculate_hash⟩

/-- Embedding of `Block.mine`: the unbounded
`while not self.hash.startswith("0" * difficulty)` loop, with explicit
fuel; `none` models non-termination within the given fuel. -/
def Block.mine (fuel difficulty : Nat) (b : Block) : Option Block :=
  if pyStartswith b.hash (zeroTarget difficulty) then some b
  else
    match fuel with
    | 0 => none
    | f + 1 => Block.mine f difficulty (mineStep b)

/-! ## The chain engine (embedding of `Blockchain` in src/blockchain.py) -/

/-- Embedding of the `Blockchain` state: the chain, the configured
difficulty, and the pending pool. -/
structure Blockchain where
  chain : List Block
  difficulty : Nat
  pending_transactions : List Transaction
  deriving Repr, DecidableEq

/-- The sentinel transaction placed in the genesis block. -/
def genesis_tx : Transaction := ⟨"Genesis", "Genesis", 0, 0, 0, 0, none⟩

/-- Embedding of `Blockchain._create_genesis_block`: index 0,
`previous_hash = "0"`, one sentinel transaction, nonce 0 (default), and no
mining.  `now` is the rendering of the `time.time()` call. -/
def create_genesis_block (now : String) : Block :=
  mkBlock 0 "0" now [genesis_tx] 0

/-- Embedding of `Blockchain.__init__`: a single-element chain holding the
genesis block, the given difficulty (source default 4), an empty pool. -/
def Blockchain.init (difficulty : Nat) (now : String) : Blockchain :=
  ⟨[create_genesis_block now], difficulty, []⟩

/-- Modelled from the spec: the engine's pool-append operation
(`append_transaction(tx)` in §4.3, `submit(transaction)` in §6).  In
src/blockchain.py the pending pool is a bare attribute with no appending
method (the API layer calls an `add_block(data)` signature that does not
exist there), so the operation is taken from the spec's words: it appends
`tx` to `pending_transactions` and changes nothing else. -/
def Blockchain.append_transaction (bc : Blockchain) (tx : Transaction) : Blockchain :=
  ⟨bc.chain, bc.difficulty, bc.pending_transactions ++ [tx]⟩

/-- The failures of `Blockchain.add_block`: `emptyPool` is the source's
`raise ValueError("Нет транзакций для добавления!")`; `emptyChain` is the
`IndexError` Python would raise on `self.chain[-1]` with an empty chain
(unreachable through the public operations); `fuelExhausted` models a
mining loop that does not terminate within the given fuel. -/
inductive SealError where
  | emptyPool
  | emptyChain
  | fuelExhausted
  deriving Repr, DecidableEq

/-- Embedding of `Blockchain.add_block`: fails on an empty pool, else
builds a block at `latest.index + 1` linked to `latest.hash` carrying a
snapshot copy of the pool (`self.pending_transactions.copy()` — a list
value here), mines it, appends it and clears the pool. -/
def Blockchain.add_block (bc : Blockchain) (fuel : Nat) (now : String) :
    Except SealError (Blockchain × Block) :=
  match bc.pending_transactions with
  | [] => Except.error SealError.emptyPool
  | _ :: _ =>
    match bc.chain.getLast? with
    | none => Except.error SealError.emptyChain
    | some latest =>
      let new_block := mkBlock (latest.index + 1) latest.hash now bc.pending_transactions 0
      match Block.mine fuel bc.difficulty new_block with
      | none => Except.error SealError.fuelExhausted
      | some mined =>
        Except.ok (⟨bc.chain ++ [mined], bc.difficulty, []⟩, mined)

/-- Running `add_block` as the caller observes the object: on any raised
error the engine state is left exactly as it was (the source raises before
any mutation). -/
def Blockchain.try_add_block (bc : Blockchain) (fuel : Nat) (now : String) :
    Blockchain × Except SealError Block :=
  match bc.add_block fuel now with
  | Except.ok (bc', blk) => (bc', Except.ok blk)
  | Except.error e => (bc, Except.error e)

/-- The validation loop of `Blockchain.is_valid` over adjacent pairs:
`for i in range(1, len(chain))`, returning `False` at the first block
whose stored hash differs from its recomputed hash or whose
`previous_hash` differs from its predecessor's hash. -/
def chainOk : List Block → Bool
  | prev :: current :: rest =>
    if current.hash != current.calculate_hash || current.previous_hash != prev.hash then
      false
    else chainOk (current :: rest)
  | _ => true

/-- Embedding of `Blockchain.is_valid`. -/
def Blockchain.is_valid (bc : Blockchain) : Bool := chainOk bc.chain

/-- Modelled from the spec: `get_block_by_hash` is called by the API layer
(src/main.py) but is missing from the `Blockchain` class in
src/blockchain.py; the spec (§4.3) describes it as a linear scan over
`chain` for an exact hash match, returning an explicit absent signal and
never throwing. -/
def Blockchain.get_block_by_hash (bc : Blockchain) (h : String) : Option Block :=
  bc.chain.find? (fun b => b.hash == h)

/-- The engine states reachable through the public operations:
construction, appending a transaction to the pool, and a successful seal.
A failed seal leaves the state unchanged (`try_add_block`), so it adds no
states. -/
inductive Reachable : Blockchain → Prop where
  | init (difficulty : Nat) (now : String) : Reachable (Blockchain.init difficulty now)
  | submit {bc : Blockchain} (tx : Transaction) :
      Reachable bc → Reachable (bc.append_transaction tx)
  | sealOk {bc bc' : Blockchain} {blk : Block} (fuel : Nat) (now : String) :
      Reachable bc → bc.add_block fuel now = Except.ok (bc', blk) → Reachable bc'

/-! ## Basic facts about blocks and mining -/

@[simp] lemma mineStep_index (b : Block) : (mineStep b).index = b.index := rfl

@[simp] lemma mineStep_previous_hash (b : Block) : (mineStep b).previous_hash = b.previous_hash := rfl

@[simp] lemma mineStep_timestamp (b : Block) : (mineStep b).timestamp = b.timestamp := rfl

@[simp] lemma mineStep_transactions (b : Block) : (mineStep b).transactions = b.transactions := rfl

@[simp] lemma mineStep_nonce (b : Block) : (mineStep b).nonce = b.nonce + 1 := rfl

lemma mineStep_hash_eq_calc (b : Block) : (mineStep b).hash = (mineStep b).calculate_hash := rfl

lemma mkBlock_hash_eq_calc (i : Nat) (ph ts : String) (txs : List Transaction) (n : Nat) :
    (mkBlock i ph ts txs n).hash = (mkBlock i ph ts txs n).calculate_hash := rfl

/-- The digest is a function of `(index, previous_hash, timestamp, nonce)`
alone: two blocks that agree on those four fields hash identically. -/
lemma calculate_hash_congr (b1 b2 : Block) (hi : b1.index = b2.index)
    (hp : b1.previous_hash = b2.previous_hash) (ht : b1.timestamp = b2.timestamp)
    (hn : b1.nonce = b2.nonce) : b1.calculate_hash = b2.calculate_hash := by
  simp [Block.calculate_hash, hi, hp, ht, hn]

lemma mine_unfold (fuel d : Nat) (b : Block) :
    Block.mine fuel d b =
      if pyStartswith b.hash (zeroTarget d) then some b
      else
        match fuel with
        | 0 => none
        | f + 1 => Block.mine f d (mineStep b) := by
  cases fuel <;> rw [Block.mine]

lemma pyStartswith_zero (s : String) : pyStartswith s (zeroTarget 0) = true := by
  simp [pyStartswith, zeroTarget, List.replicate]

lemma mine_immediate (fuel d : Nat) (b : Block)
    (h : pyStartswith b.hash (zeroTarget d) = true) : Block.mine fuel d b = some b := by
  rw [mine_unfold, if_pos h]

/-- Everything `Block.mine` guarantees when it returns a block: the
proof-of-work predicate holds, only `nonce` and `hash` were touched, the
nonce never decreased, and the stored hash is the recomputed digest
whenever it was on entry. -/
lemma mine_spec : ∀ (fuel d : Nat) (b b' : Block), Block.mine fuel d b = some b' →
    pyStartswith b'.hash (zeroTarget d) = true ∧
    b'.index = b.index ∧ b'.previous_hash = b.previous_hash ∧
    b'.timestamp = b.timestamp ∧ b'.transactions = b.transactions ∧
    b.nonce ≤ b'.nonce ∧
    (b.hash = b.calculate_hash → b'.hash = b'.calculate_hash) := by
  intro fuel
  induction fuel with
  | zero =>
    intro d b b' h
    rw [mine_unfold] at h
    by_cases hc : pyStartswith b.hash (zeroTarget d) = true
    · rw [if_pos hc] at h
      cases h
      exact ⟨hc, rfl, rfl, rfl, rfl, Nat.le_refl _, fun hh => hh⟩
    · rw [if_neg hc] at h
      cases h
  | succ f ih =>
    intro d b b' h
    rw [mine_unfold] at h
    by_cases hc : pyStartswith b.hash (zeroTarget d) = true
    · rw [if_pos hc] at h
      cases h
      exact ⟨hc, rfl, rfl, rfl, rfl, Nat.le_refl _, fun hh => hh⟩
    · rw [if_neg hc] at h
      obtain ⟨h1, h2, h3, h4, h5, h6, h7⟩ := ih d (mineStep b) b' h
      refine ⟨h1, by simpa using h2, by simpa using h3, by simpa using h4,
        by simpa using h5, ?_, fun _ => h7 (mineStep_hash_eq_calc b)⟩
      have : b.nonce + 1 ≤ b'.nonce := by simpa using h6
      omega

/-- Measuring "at least `d` leading zero hex digits". -/
def leadingZeros (s : String) : Nat :=
  (s.data.takeWhile (fun c => c == '0')).length

lemma replicate_isPrefixOf_iff (c : Char) :
    ∀ (d : Nat) (l : List Char),
      (List.replicate d c).isPrefixOf l = true ↔ d ≤ (l.takeWhile (fun x => x == c)).length := by
  intro d
  induction d with
  | zero => intro l; simp [List.isPrefixOf]
  | succ n ih =>
    intro l
    cases l with
    | nil => simp [List.replicate, List.isPrefixOf]
    | cons x xs =>
      by_cases hx : x = c
      · subst hx
        simp only [List.replicate, List.isPrefixOf, List.takeWhile, BEq.refl, Bool.true_and,
          if_pos, List.length_cons]
        rw [ih xs]
        omega
      · have hcx : (c == x) = false := by
          simp [beq_iff_eq]
          exact fun hh => hx hh.symm
        have hxc : (x == c) = false := by simp [beq_iff_eq, hx]
        simp [List.replicate, List.isPrefixOf, List.takeWhile, hcx, hxc]

lemma pyStartswith_zeroTarget_iff (d : Nat) (s : String) :
    pyStartswith s (zeroTarget d) = true ↔ d ≤ leadingZeros s := by
  simpa [pyStartswith, zeroTarget, leadingZeros] using
    replicate_isPrefixOf_iff '0' d s.data

/-! ## The chain invariant -/

/-- Adjacent-pair invariant: the right block points at the left block's
hash, and its stored hash is its recomputed digest. -/
def Linked (a b : Block) : Prop :=
  b.previous_hash = a.hash ∧ b.hash = b.calculate_hash

/-- The chain invariant: every adjacent pair is `Linked`. -/
def ChainInv (l : List Block) : Prop := List.Chain' Linked l

lemma chainOk_iff : ∀ l : List Block, chainOk l = true ↔ ChainInv l
  | [] => by simp [chainOk, ChainInv]
  | [b] => by simp [chainOk, ChainInv]
  | a :: b :: rest => by
    rw [ChainInv, List.chain'_cons]
    have ih := chainOk_iff (b :: rest)
    rw [ChainInv] at ih
    by_cases h1 : b.hash = b.calculate_hash
    · by_cases h2 : b.previous_hash = a.hash
      · simp [chainOk, h1, h2, Linked, ih]
      · simp [chainOk, h1, h2, Linked]
    · simp [chainOk, h1, Linked]

lemma add_block_ok {bc bc' : Blockchain} {blk : Block} {fuel : Nat} {now : String}
    (h : bc.add_block fuel now = Except.ok (bc', blk)) :
    ∃ latest, bc.chain.getLast? = some latest ∧
      Block.mine fuel bc.difficulty
        (mkBlock (latest.index + 1) latest.hash now bc.pending_transactions 0) = some blk ∧
      bc' = ⟨bc.chain ++ [blk], bc.difficulty, []⟩ := by
  unfold Blockchain.add_block at h
  cases hp : bc.pending_transactions with
  | nil => rw [hp] at h; simp at h
  | cons t ts =>
    rw [hp] at h
    cases hl : bc.chain.getLast? with
    | none => rw [hl] at h; simp at h
    | some latest =>
      rw [hl] at h
      dsimp only at h
      cases hm : Block.mine fuel bc.difficulty
          (mkBlock (latest.index + 1) latest.hash now (t :: ts) 0) with
      | none => rw [hm] at h; simp at h
      | some mined =>
        rw [hm] at h
        simp only [Except.ok.injEq, Prod.mk.injEq] at h
        refine ⟨latest, rfl, ?_, ?_⟩
        · rw [← h.2]
          exact hm
        · rw [← h.1, h.2]

lemma reachable_chainInv {bc : Blockchain} (h : Reachable bc) : ChainInv bc.chain := by
  induction h with
  | init d now => exact List.chain'_singleton _
  | submit tx _ ih => exact ih
  | @sealOk bc0 bc' blk fuel now _ heq ih =>
    obtain ⟨latest, hl, hm, hbc'⟩ := add_block_ok heq
    subst hbc'
    have hs := mine_spec _ _ _ _ hm
    show ChainInv (bc0.chain ++ [blk])
    refine List.chain'_append.mpr ⟨ih, List.chain'_singleton _, ?_⟩
    intro x hx y hy
    rw [Option.mem_def, hl] at hx
    rw [Option.mem_def] at hy
    have hx' : latest = x := Option.some.inj hx
    have hy' : blk = y := Option.some.inj hy
    subst hx'
    subst hy'
    constructor
    · exact hs.2.2.1
    · exact hs.2.2.2.2.2.2 (mkBlock_hash_eq_calc _ _ _ _ _)

/-! ## Concrete data used by the witnesses (difficulty 0, so mining is immediate) -/

/-- A sample station transaction. -/
def wTx : Transaction := ⟨"A", "B", 10, 1, 2, 3, none⟩

/-- The genesis block of the sample engine (constructed at time `1.0`). -/
def wGen : Block := create_genesis_block "1.0"

/-- A freshly constructed sample engine with difficulty 0. -/
def wBC0 : Blockchain := Blockchain.init 0 "1.0"

/-- The sample engine after submitting one transaction. -/
def wBC1 : Blockchain := wBC0.append_transaction wTx

/-- The block sealed from the sample pool at time `2.0`. -/
def wBlk : Block := mkBlock 1 wGen.hash "2.0" [wTx] 0

/-- The sample engine after the seal. -/
def wBC2 : Blockchain := ⟨[wGen, wBlk], 0, []⟩

lemma wseal : wBC1.add_block 0 "2.0" = Except.ok (wBC2, wBlk) := rfl

lemma reachable_wBC2 : Reachable wBC2 :=
  Reachable.sealOk 0 "2.0" (Reachable.submit wTx (Reachable.init 0 "1.0")) wseal

lemma wordHex_length (x : Nat) : (wordHex x).length = 8 := rfl

lemma sha256Hex_length (s : String) : (sha256Hex s).length = 64 := by
  simp [sha256Hex, String.length_append, wordHex_length]

lemma ne_sha256Hex_of_length (s t : String) (h : t.length ≠ 64) : t ≠ sha256Hex s :=
  fun hh => h (hh ▸ sha256Hex_length s)

/-! ## The claims -/

/-- C1: for every `Blockchain` built only through the engine's public
operations (construction, adding transactions to the pending pool, and
sealing via `add_block`), the chain invariant holds — every block at index
`i ≥ 1` points at its predecessor's hash and stores its own recomputed
digest — and therefore `is_valid` returns `true`. -/
theorem chain_invariant_of_reachable (bc : Blockchain) (h : Reachable bc) :
    (∀ i : Nat, (hi : i + 1 < bc.chain.length) →
      (bc.chain.get ⟨i + 1, hi⟩).previous_hash
          = (bc.chain.get ⟨i, Nat.lt_of_succ_lt hi⟩).hash ∧
      (bc.chain.get ⟨i + 1, hi⟩).hash = (bc.chain.get ⟨i + 1, hi⟩).calculate_hash) ∧
    bc.is_valid = true := by
  have hc := reachable_chainInv h
  constructor
  · intro i hi
    have hp := List.chain'_iff_get.mp hc i (by omega)
    exact ⟨hp.1, hp.2⟩
  · exact (chainOk_iff bc.chain).mpr hc

/-- Witness for C1 at a concrete two-block engine run. -/
theorem chain_invariant_of_reachable_witness : Blockchain.is_valid wBC2 = true :=
  (chain_invariant_of_reachable wBC2 reachable_wBC2).2

/-- C2: a successful seal constructs a block at `latest.index + 1` linked
to `latest.hash` whose transactions are a snapshot of the pending pool,
appends it to the chain, clears the pool, and returns that block; later
pool mutations leave the extended chain (hence the sealed block) intact. -/
theorem add_block_seals_pool (bc bc' : Blockchain) (blk latest : Block) (fuel : Nat)
    (now : String) (hlast : bc.chain.getLast? = some latest)
    (h : bc.add_block fuel now = Except.ok (bc', blk)) :
    blk.index = latest.index + 1 ∧
    blk.previous_hash = latest.hash ∧
    blk.transactions = bc.pending_transactions ∧
    bc'.chain = bc.chain ++ [blk] ∧
    bc'.pending_transactions = [] ∧
    ∀ tx : Transaction, (bc'.append_transaction tx).chain = bc.chain ++ [blk] := by
  obtain ⟨latest', hl', hm, hbc'⟩ := add_block_ok h
  rw [hlast] at hl'
  obtain rfl : latest = latest' := Option.some.inj hl'
  have hs := mine_spec _ _ _ _ hm
  subst hbc'
  exact ⟨hs.2.1, hs.2.2.1, hs.2.2.2.2.1, rfl, rfl, fun _ => rfl⟩

/-- Witness for C2 at the concrete seal of `wBC1`. -/
theorem add_block_seals_pool_witness :
    wBlk.index = wGen.index + 1 ∧ wBlk.previous_hash = wGen.hash ∧
    wBlk.transactions = wBC1.pending_transactions ∧
    wBC2.chain = wBC1.chain ++ [wBlk] ∧ wBC2.pending_transactions = [] ∧
    ∀ tx : Transaction, (wBC2.append_transaction tx).chain = wBC1.chain ++ [wBlk] :=
  add_block_seals_pool wBC1 wBC2 wBlk wGen 0 "2.0" rfl wseal

/-- C3: whenever `mine d` returns a block, its hash has at least `d`
leading zero hex digits and equals the digest recomputed from its fields
(the entering block stores its recomputed digest, as every constructed
block does). -/
theorem mine_postcondition (fuel d : Nat) (b b' : Block)
    (hb : b.hash = b.calculate_hash) (h : Block.mine fuel d b = some b') :
    d ≤ leadingZeros b'.hash ∧ b'.hash = b'.calculate_hash := by
  have hs := mine_spec fuel d b b' h
  exact ⟨(pyStartswith_zeroTarget_iff d b'.hash).mp hs.1, hs.2.2.2.2.2.2 hb⟩

/-- Witness for C3 at difficulty 0 on the genesis block. -/
theorem mine_postcondition_witness :
    0 ≤ leadingZeros wGen.hash ∧ wGen.hash = wGen.calculate_hash :=
  mine_postcondition 0 0 wGen wGen rfl rfl

/-- C4: sealing with an empty pending pool fails with the empty-pool error
and the engine state (in particular the chain) is unchanged — the failure
happens before any mutation. -/
theorem add_block_empty_pool (bc : Blockchain) (fuel : Nat) (now : String)
    (h : bc.pending_transactions = []) :
    bc.try_add_block fuel now = (bc, Except.error SealError.emptyPool) ∧
    (bc.try_add_block fuel now).1.chain.length = bc.chain.length := by
  have he : bc.add_block fuel now = Except.error SealError.emptyPool := by
    unfold Blockchain.add_block
    rw [h]
  have h1 : bc.try_add_block fuel now = (bc, Except.error SealError.emptyPool) := by
    unfold Blockchain.try_add_block
    rw [he]
  exact ⟨h1, by rw [h1]⟩

/-- Witness for C4 on a freshly constructed engine. -/
theorem add_block_empty_pool_witness :
    wBC0.try_add_block 5 "2.0" = (wBC0, Except.error SealError.emptyPool) ∧
    (wBC0.try_add_block 5 "2.0").1.chain.length = wBC0.chain.length :=
  add_block_empty_pool wBC0 5 "2.0" rfl

/-- C6: `calculate_hash` is a deterministic pure function of exactly
`(index, previous_hash, timestamp, nonce)`: two blocks agreeing on those
four fields produce the same digest even when their transactions (or
signatures) differ — transaction contents do not influence the digest. -/
theorem calculate_hash_pure (b1 b2 : Block) (hi : b1.index = b2.index)
    (hp : b1.previous_hash = b2.previous_hash) (ht : b1.timestamp = b2.timestamp)
    (hn : b1.nonce = b2.nonce) : b1.calculate_hash = b2.calculate_hash :=
  calculate_hash_congr b1 b2 hi hp ht hn

/-- A block agreeing with `wB2` on the hashed fields but holding a
different transaction list. -/
def wB1 : Block := mkBlock 3 "ph" "5.0" [wTx] 7

/-- A block with the same hashed fields as `wB1` and different, signed
transactions. -/
def wB2 : Block := mkBlock 3 "ph" "5.0" [⟨"C", "D", 1, 0, 0, 0, some "ab"⟩] 7

/-- Witness for C6: equal digests despite different transactions. -/
theorem calculate_hash_pure_witness :
    wB1.calculate_hash = wB2.calculate_hash ∧ wB1.transactions ≠ wB2.transactions :=
  ⟨calculate_hash_pure wB1 wB2 rfl rfl rfl rfl, by decide⟩

/-- C7: `Transaction.is_valid` is a total boolean predicate: a transaction
whose sender is the genesis sentinel is valid unconditionally (even
unsigned); for any other sender, every failure of the `try` block —
malformed sender hex, malformed key encoding or curve mismatch, absent
signature, malformed signature hex — resolves to `false` rather than an
exception. -/
theorem transaction_is_valid_total {K : Type} (api : EcdsaApi K) (t : Transaction) :
    (t.sender = "Genesis" → Transaction.is_valid api t = true) ∧
    (t.sender ≠ "Genesis" →
      (bytesFromHex t.sender = none → Transaction.is_valid api t = false) ∧
      (∀ sb, bytesFromHex t.sender = some sb → api.fromBytes sb = none →
        Transaction.is_valid api t = false) ∧
      (t.signature = none → Transaction.is_valid api t = false) ∧
      (∀ sb k sg, bytesFromHex t.sender = some sb → api.fromBytes sb = some k →
        t.signature = some sg → bytesFromHex sg = none →
        Transaction.is_valid api t = false)) := by
  constructor
  · intro hg
    simp [Transaction.is_valid, hg]
  · intro hg
    have hg' : (t.sender == "Genesis") = false := by simp [hg]
    refine ⟨?_, ?_, ?_, ?_⟩
    · intro hb
      simp [Transaction.is_valid, hg', hb]
    · intro sb hb hk
      simp [Transaction.is_valid, hg', hb, hk]
    · intro hsig
      cases hb : bytesFromHex t.sender with
      | none => simp [Transaction.is_valid, hg', hb]
      | some sb =>
        cases hk : api.fromBytes sb with
        | none => simp [Transaction.is_valid, hg', hb, hk]
        | some k => simp [Transaction.is_valid, hg', hb, hk, hsig]
    · intro sb k sg hb hk hsig hbad
      simp [Transaction.is_valid, hg', hb, hk, hsig, hbad]

/-- A verification capability on which every key decode fails. -/
def wApi : EcdsaApi Unit := ⟨fun _ => none, fun _ _ _ => true⟩

/-- A transaction with a malformed (non-hex) sender and no signature. -/
def wBadTx : Transaction := ⟨"zz", "B", 1, 0, 0, 0, none⟩

/-- Witness for C7: the genesis sentinel is valid unsigned; a malformed
sender resolves to `false`. -/
theorem transaction_is_valid_total_witness :
    Transaction.is_valid wApi genesis_tx = true ∧
    Transaction.is_valid wApi wBadTx = false :=
  ⟨(transaction_is_valid_total wApi genesis_tx).1 rfl,
   ((transaction_is_valid_total wApi wBadTx).2 (by decide)).1 rfl⟩

/-- C8: `get_block_by_hash` is a linear scan for an exact hash match: for
a hash absent from the chain it returns the explicit `none` signal (the
operation is a total function — it never throws), and any hit is a chain
member bearing exactly the requested hash. -/
theorem get_block_by_hash_total (bc : Blockchain) (h : String) :
    ((∀ b ∈ bc.chain, b.hash ≠ h) → bc.get_block_by_hash h = none) ∧
    (∀ b, bc.get_block_by_hash h = some b → b ∈ bc.chain ∧ b.hash = h) := by
  constructor
  · intro habs
    unfold Blockchain.get_block_by_hash
    rw [List.find?_eq_none]
    intro b hb
    simp only [beq_iff_eq]
    exact habs b hb
  · intro b hfind
    unfold Blockchain.get_block_by_hash at hfind
    have h1 := List.mem_of_find?_eq_some hfind
    have h2 := List.find?_some hfind
    simp only [beq_iff_eq] at h2
    exact ⟨h1, h2⟩

/-- Witness for C8: the empty string is no block's hash (digests have 64
characters), so the lookup signals absence. -/
theorem get_block_by_hash_total_witness : wBC0.get_block_by_hash "" = none :=
  (get_block_by_hash_total wBC0 "").1 (fun b hb => by
    have hbx : b = create_genesis_block "1.0" := List.mem_singleton.mp hb
    rw [hbx]
    exact Ne.symm (ne_sha256Hex_of_length _ "" (by decide)))

/-- C9: mining is monotone and idempotent: a successful `mine d` never
decreases the nonce; if the block's hash already meets the difficulty the
loop returns it unchanged at once; `mine 0` is always an immediate no-op;
and re-mining an already-mined block changes nothing. -/
theorem mine_monotone_idempotent (fuel fuel' d : Nat) (b b' : Block) :
    (Block.mine fuel d b = some b' → b.nonce ≤ b'.nonce) ∧
    (pyStartswith b.hash (zeroTarget d) = true → Block.mine fuel d b = some b) ∧
    Block.mine fuel 0 b = some b ∧
    (Block.mine fuel d b = some b' → Block.mine fuel' d b' = some b') := by
  refine ⟨fun h => (mine_spec fuel d b b' h).2.2.2.2.2.1,
    mine_immediate fuel d b, mine_immediate fuel 0 b (pyStartswith_zero b.hash), ?_⟩
  intro h
  exact mine_immediate fuel' d b' (mine_spec fuel d b b' h).1

/-- Witness for C9: difficulty-0 mining of the genesis block is an
immediate no-op, and re-mining it changes nothing. -/
theorem mine_monotone_idempotent_witness :
    Block.mine 7 0 wGen = some wGen ∧ Block.mine 3 0 wGen = some wGen :=
  ⟨(mine_monotone_idempotent 7 9 0 wGen wGen).2.2.1,
   (mine_monotone_idempotent 0 3 0 wGen wGen).2.2.2 rfl⟩

/-- C10: for every difficulty, a freshly constructed `Blockchain` has a
one-element chain holding the genesis block with index 0, previous hash
`"0"`, nonce 0, and exactly one all-zero `"Genesis"` transaction; the
genesis block is never mined, its stored hash is simply its recomputed
digest, and `is_valid` holds on the fresh chain for every difficulty. -/
theorem fresh_blockchain_genesis (d : Nat) (now : String) :
    (Blockchain.init d now).chain.length = 1 ∧
    (Blockchain.init d now).chain = [create_genesis_block now] ∧
    (create_genesis_block now).index = 0 ∧
    (create_genesis_block now).previous_hash = "0" ∧
    (create_genesis_block now).nonce = 0 ∧
    (create_genesis_block now).transactions = [⟨"Genesis", "Genesis", 0, 0, 0, 0, none⟩] ∧
    (create_genesis_block now).hash = (create_genesis_block now).calculate_hash ∧
    (Blockchain.init d now).is_valid = true :=
  ⟨rfl, rfl, rfl, rfl, rfl, rfl, rfl, rfl⟩

/-- C5 (amended): tampering with an appended non-genesis block is detected
exactly when it disturbs the digest or the linkage: replacing `chain[i]`
(`i ≥ 1`) by a block whose stored hash differs from its own recomputed
digest, or whose `previous_hash` no longer equals the predecessor's hash,
makes `is_valid` return `false`; replacing it by a block that differs only
in its `transactions` (all digest and linkage fields unchanged) leaves
`is_valid` true — transaction tampering is never detected, because the
digest excludes transaction contents. -/
theorem tamper_detection (bc : Blockchain) (i : Nat) (b' : Block)
    (hre : Reachable bc) (hi1 : 1 ≤ i) (hi : i < bc.chain.length) :
    ((b'.hash ≠ b'.calculate_hash ∨
        b'.previous_hash ≠ (bc.chain.get ⟨i - 1, by omega⟩).hash) →
      Blockchain.is_valid ⟨bc.chain.set i b', bc.difficulty, bc.pending_transactions⟩
        = false) ∧
    ((b'.index = (bc.chain.get ⟨i, hi⟩).index ∧
      b'.previous_hash = (bc.chain.get ⟨i, hi⟩).previous_hash ∧
      b'.timestamp = (bc.chain.get ⟨i, hi⟩).timestamp ∧
      b'.nonce = (bc.chain.get ⟨i, hi⟩).nonce ∧
      b'.hash = (bc.chain.get ⟨i, hi⟩).hash) →
      Blockchain.is_valid ⟨bc.chain.set i b', bc.difficulty, bc.pending_transactions⟩
        = true) := by
  have hc := reachable_chainInv hre
  constructor
  · intro hbad
    show chainOk (bc.chain.set i b') = false
    have hninv : ¬ ChainInv (bc.chain.set i b') := by
      intro hinv
      have hp := List.chain'_iff_get.mp hinv (i - 1)
        (by simp only [List.length_set]; omega)
      have hii : i - 1 + 1 = i := by omega
      simp only [List.get_eq_getElem, hii] at hp
      rw [List.getElem_set_self, List.getElem_set_ne (by omega : i ≠ i - 1)] at hp
      rcases hbad with hb1 | hb2
      · exact hb1 hp.2
      · exact hb2 (by simpa [List.get_eq_getElem] using hp.1)
    exact Bool.eq_false_iff.mpr (fun ht => hninv ((chainOk_iff _).mp ht))
  · intro hfields
    obtain ⟨hI, hP, hT, hN, hH⟩ := hfields
    simp only [List.get_eq_getElem] at hI hP hT hN hH
    show chainOk (bc.chain.set i b') = true
    apply (chainOk_iff _).mpr
    apply List.chain'_iff_get.mpr
    intro j hj
    simp only [List.length_set] at hj
    have horig := List.chain'_iff_get.mp hc j (by omega)
    simp only [List.get_eq_getElem] at horig ⊢
    by_cases hj1 : j + 1 = i
    · subst hj1
      rw [List.getElem_set_ne (by omega : j + 1 ≠ j), List.getElem_set_self]
      constructor
      · rw [hP]
        exact horig.1
      · rw [hH, calculate_hash_congr b' (bc.chain.get ⟨j + 1, hi⟩) hI hP hT hN]
        exact horig.2
    · by_cases hj2 : j = i
      · subst hj2
        rw [List.getElem_set_self, List.getElem_set_ne (by omega : j ≠ j + 1)]
        constructor
        · rw [hH]
          exact horig.1
        · exact horig.2
      · rw [List.getElem_set_ne (by omega : i ≠ j),
          List.getElem_set_ne (by omega : i ≠ j + 1)]
        exact horig

/-- A transaction used for tampering, different from the sealed one. -/
def wTamperTx : Transaction := ⟨"C", "D", 99, 0, 0, 0, none⟩

/-- The sealed block `wBlk` with only its transaction list replaced. -/
def wBlkTampered : Block :=
  ⟨wBlk.index, wBlk.previous_hash, wBlk.timestamp, [wTamperTx], wBlk.nonce, wBlk.hash⟩

/-- The sealed block `wBlk` with its `previous_hash` overwritten by an
empty string (a digest-length violation, so certainly a changed value). -/
def wBlkBadPrev : Block :=
  ⟨wBlk.index, "", wBlk.timestamp, wBlk.transactions, wBlk.nonce, wBlk.hash⟩

/-- Counterexample to C5 as stated: in the engine `wBC2` (reached by one
genuine seal), replacing the appended block's `transactions` field by a
different list — a mutation of one field of an already-appended block —
leaves `is_valid` at `true`, because the digest ignores transactions. -/
theorem tamper_transactions_undetected :
    Reachable wBC2 ∧
    wBC2.chain.set 1 wBlkTampered = [wGen, wBlkTampered] ∧
    wBlkTampered.transactions ≠ wBlk.transactions ∧
    Blockchain.is_valid
      ⟨wBC2.chain.set 1 wBlkTampered, wBC2.difficulty, wBC2.pending_transactions⟩
      = true := by
  refine ⟨reachable_wBC2, rfl, by decide, ?_⟩
  exact (chainOk_iff _).mpr (List.chain'_cons.mpr ⟨⟨rfl, rfl⟩, List.chain'_singleton _⟩)

/-- Witness for C5 (amended), both halves at concrete inputs: a broken
linkage is caught, a transactions-only mutation is not. -/
theorem tamper_detection_witness :
    Blockchain.is_valid
      ⟨wBC2.chain.set 1 wBlkBadPrev, wBC2.difficulty, wBC2.pending_transactions⟩
      = false ∧
    Blockchain.is_valid
      ⟨wBC2.chain.set 1 wBlkTampered, wBC2.difficulty, wBC2.pending_transactions⟩
      = true :=
  ⟨(tamper_detection wBC2 1 wBlkBadPrev reachable_wBC2 (by decide) (by decide)).1
      (Or.inr (ne_sha256Hex_of_length _ "" (by decide))),
   (tamper_detection wBC2 1 wBlkTampered reachable_wBC2 (by decide) (by decide)).2
      ⟨rfl, rfl, rfl, rfl, rfl⟩⟩

end GasBlockchain
